import Mathlib

/-
Verification of the lance-mcp ingestion and search pipeline.

Shallow embedding of:
  src/tools/operations/chunks_search.ts   (ChunksSearchTool)
  src/tools/operations/broad_chunks_search.ts
      (BroadSearchTool, CatalogSearchTool, and the seed script:
       catalogRecordExists, processDocuments, processImages, seed)
  src/image-processor.ts                  (ImageProcessor)

JavaScript strings are Lean `String`s; string manipulation is implemented
over `List Char` by structural recursion so that all definitions evaluate
inside the kernel.  JavaScript `undefined`/`null` fields are `Option`s, and
JavaScript truthiness is modelled explicitly where the code relies on it
(`!loc`, `if (pageInfo)`, `if (params.source)`, `loc.lines.to ? ...`).
External capabilities (the LanceDB retriever, sha256, the summarization
model, pdf2pic rasterization, sharp resize/metadata) are parameters of the
embedding: the code under verification is everything that happens around
those calls.
-/

/-! ## String helpers (JS `split('/')`, `path.basename`, `path.extname`,
`toLowerCase`, `endsWith`) -/

/-- Split a character list at every occurrence of `sep`, JS `String.split`
style: `chSplitAux sep l acc` processes `l` with `acc` holding the current
(reversed) segment. -/
def chSplitAux (sep : Char) : List Char → List Char → List (List Char)
  | [], acc => [acc.reverse]
  | x :: xs, acc =>
    if x = sep then acc.reverse :: chSplitAux sep xs []
    else chSplitAux sep xs (x :: acc)

/-- JS `s.split(sep)` for a one-character separator. -/
def chSplit (sep : Char) (l : List Char) : List (List Char) :=
  chSplitAux sep l []

/-- JS `source.split('/').pop()` / Node `path.basename` (posix). -/
def basename (s : String) : String :=
  String.mk ((chSplit '/' s.toList).getLastD [])

/-- Node `path.extname`: the final extension of the basename, including the
dot; a lone leading dot (hidden file) yields the empty string. -/
def extname (s : String) : String :=
  let parts := chSplit '.' (basename s).toList
  match parts with
  | [] => ""
  | [_] => ""
  | [[], _] => ""
  | _ => String.mk ('.' :: parts.getLastD [])

/-- JS `s.toLowerCase()` (ASCII range, as `Char.toLower`). -/
def toLowerStr (s : String) : String :=
  String.mk (s.toList.map Char.toLower)

/-- JS `s.endsWith(suffix)`. -/
def endsWithStr (s suff : String) : Bool :=
  suff.toList.isSuffixOf s.toList

/-- Node `path.join(a, b)` for the posix paths used by the code. -/
def pathJoin (a b : String) : String :=
  a ++ "/" ++ b

/-! ## Location metadata (`loc`) model

`loc` values reaching `extractPageInfo` are JavaScript values of four
shapes: an object (possibly carrying `pageNumber`, `page`, `lines`), a
string, a number, or null/undefined/absent. -/

/-- A primitive JS value appearing in a `pageNumber`/`page` field. -/
inductive JsPrim where
  | str (s : String)
  | num (n : Int)
deriving DecidableEq, Repr

/-- JS `v.toString()` on a primitive. -/
def jsToString : JsPrim → String
  | .str s => s
  | .num n => toString n

/-- The PDF-loader `lines` object: `lines.from` / `lines.to`, each possibly
absent. -/
structure Lines where
  fro : Option Int
  toL : Option Int
deriving DecidableEq, Repr

/-- A `loc` metadata value. -/
inductive Loc where
  | obj (pageNumber : Option JsPrim) (page : Option JsPrim) (lines : Option Lines)
  | str (s : String)
  | num (n : Int)
  | nullv
deriving DecidableEq, Repr

/-- The `loc.lines.to ? "-to" : ""` suffix: JS truthiness, so an absent or
zero upper bound contributes nothing. -/
def linesToSuffix : Option Int → String
  | some t => if t = 0 then "" else "-" ++ toString t
  | none => ""

/-- `extractPageInfo` of ChunksSearchTool (chunks_search.ts lines 83-107)
and, identically, of BroadSearchTool (broad_chunks_search.ts lines 71-95).
`if (!loc) return null` rejects every falsy value (null/undefined, the
number 0, the empty string); then objects are probed for `pageNumber`,
`page`, `lines.from` in that order, and remaining primitives are rendered
with `toString()`. -/
def extractPageInfo : Loc → Option String
  | .nullv => none
  | .obj pn pg ln =>
    match pn with
    | some v => some (jsToString v)
    | none =>
      match pg with
      | some v => some (jsToString v)
      | none =>
        match ln with
        | some lns =>
          match lns.fro with
          | some f => some ("Line " ++ toString f ++ linesToSuffix lns.toL)
          | none => none
        | none => none
  | .str s => if s = "" then none else some s
  | .num n => if n = 0 then none else some (toString n)

/-- The page annotation appended to a result's source line: the formatter
writes `" (Page " + pageInfo + ")"` only when `pageInfo` is truthy
(non-null and non-empty). -/
def pageAnnot (l : Loc) : String :=
  match extractPageInfo l with
  | some p => if p = "" then "" else " (Page " ++ p ++ ")"
  | none => ""

/-! ## Search hit formatting -/

/-- A retrieved document as the tools see it: `metadata.source` (possibly
absent), `metadata.loc`, `pageContent`. -/
structure SearchHit where
  source : Option String
  loc : Loc
  pageContent : String
deriving DecidableEq, Repr

/-- Truthiness of `result.metadata?.source`: present and non-empty. -/
def hitSourceName (src : Option String) : String :=
  match src with
  | some s => if s = "" then "Unknown file" else basename s
  | none => "Unknown file"

/-- The `🔗 **File Path**` line, emitted only for a truthy source. -/
def filePathLine (src : Option String) : String :=
  match src with
  | some s => if s = "" then "" else "🔗 **File Path**: " ++ s ++ "\n"
  | none => ""

/-- One result block of ChunksSearchTool / BroadSearchTool
`formatResultsWithReferences` (zero-based `index`). -/
def formatHit (index : Nat) (r : SearchHit) : String :=
  "**Result " ++ toString (index + 1) ++ "**\n" ++
  "📄 **Source**: " ++ hitSourceName r.source ++ pageAnnot r.loc ++ "\n" ++
  filePathLine r.source ++
  "📝 **Content**: " ++ r.pageContent ++ "\n" ++
  "---\n\n"

/-- One result block of CatalogSearchTool `formatResultsWithReferences`
(no page annotation in the catalog formatter). -/
def formatCatalogHit (index : Nat) (r : SearchHit) : String :=
  "**Result " ++ toString (index + 1) ++ "**\n" ++
  "📄 **Source**: " ++ hitSourceName r.source ++ "\n" ++
  filePathLine r.source ++
  "📝 **Content**: " ++ r.pageContent ++ "\n" ++
  "---\n\n"

/-- Pair every element with its zero-based index (the `forEach` index). -/
def withIdx (k : Nat) : List α → List (Nat × α)
  | [] => []
  | x :: xs => (k, x) :: withIdx (k + 1) xs

/-- `formatResultsWithReferences` of ChunksSearchTool (chunks_search.ts
lines 55-81) and, identically, of BroadSearchTool (broad_chunks_search.ts
lines 43-69).  `none` models a missing (`undefined`/null) result list:
`if (!results || results.length === 0) return "No results found."`. -/
def formatResultsWithReferences (results : Option (List SearchHit)) : String :=
  match results with
  | none => "No results found."
  | some [] => "No results found."
  | some rs =>
    "Search Results:\n\n" ++
    String.join ((withIdx 0 rs).map (fun p => formatHit p.1 p.2))

/-- CatalogSearchTool `formatResultsWithReferences` (broad_chunks_search.ts
catalog tool, lines 139-160). -/
def catalogFormatResultsWithReferences (results : Option (List SearchHit)) : String :=
  match results with
  | none => "No results found."
  | some [] => "No results found."
  | some rs =>
    "Search Results:\n\n" ++
    String.join ((withIdx 0 rs).map (fun p => formatCatalogHit p.1 p.2))

/-! ## chunks_search execution -/

/-- The declared input schema of ChunksSearchTool (only the fields the
claims are about: property names and the `required` list). -/
structure InputSchema where
  properties : List String
  required : List String
deriving DecidableEq, Repr

/-- ChunksSearchTool `inputSchema` (chunks_search.ts lines 13-28). -/
def chunksSearchInputSchema : InputSchema :=
  { properties := ["text", "source"], required := ["text", "source"] }

/-- ChunksSearchTool `execute` (chunks_search.ts lines 30-53), with the
retriever as an explicit capability: it is invoked on `params.text` only,
and the `source` filter is applied afterwards to the retrieved list, only
when `params.source` is truthy (non-empty). -/
def chunksSearchExecute (retriever : String → List SearchHit)
    (text source : String) : String :=
  let results := retriever text
  let filteredResults :=
    if source ≠ "" then
      results.filter (fun r => r.source = some source)
    else results
  formatResultsWithReferences (some filteredResults)

/-! ## Catalog table and deduplication (seed script) -/

/-- A row of the catalog table: `source`, `hash`, `summary` (the embedding
vector column plays no role in the claims). -/
structure CatalogRow where
  source : String
  hash : String
  summary : String
deriving DecidableEq, Repr

/-- `catalogRecordExists` (broad_chunks_search.ts seed script, lines
227-231): `catalogTable.query().where(hash="...").limit(1)` — an exact
equality match on the `hash` column, truncated to one row — then
`results.length > 0`. -/
def catalogRecordExists (rows : List CatalogRow) (h : String) : Bool :=
  decide (0 < ((rows.filter (fun r => r.hash = h)).take 1).length)

/-- The catalog deduplication decision as wired in `seed`/`processDocuments`:
`skipExistsCheck = overwrite || !catalogTableExists` short-circuits the
lookup (`exists = skipExistsCheck ? false : await catalogRecordExists(...)`).
`table = none` models a catalog table that does not exist. -/
def dedupShouldSkip (table : Option (List CatalogRow)) (overwrite : Bool)
    (h : String) : Bool :=
  if overwrite || table.isNone then false
  else catalogRecordExists (table.getD []) h

/-! ## Documents and the ingestion environment -/

/-- A loaded document after the seed script strips its metadata down to
`{ loc, source }`. -/
structure RawDoc where
  source : String
  loc : Loc
  pageContent : String
deriving DecidableEq, Repr

/-- A staged catalog record: `new Document({ pageContent: overview,
metadata: { source, hash } })`. -/
structure CatDoc where
  pageContent : String
  source : String
  hash : String
deriving DecidableEq, Repr

/-- A chunk-table document: text chunks carry `{ loc, source }`; image
chunks carry `{ source, type: 'image', imagePath, pageNumber? }`. -/
structure Doc where
  pageContent : String
  source : String
  loc : Option Loc := none
  dtype : Option String := none
  imagePath : Option String := none
  pageNumber : Option Nat := none
deriving DecidableEq, Repr

/-- One entry of the pdf2pic `bulk` result list; `path` may be absent. -/
structure RasterPage where
  path : Option String
deriving DecidableEq, Repr

/-- The sharp `metadata()` fields the description generator reads. -/
structure ImgMeta where
  width : Option Nat
  height : Option Nat
  format : Option String
deriving DecidableEq, Repr

/-- The external capabilities the seed script and ImageProcessor call:
file reads, sha256, summarization, pdf2pic rasterization, sharp resize and
sharp metadata.  Each is an explicit parameter; `Except.error` models a
thrown/rejected call. -/
structure Env where
  fileContent : String → String
  hashFn : String → String
  summarize : List RawDoc → String
  rasterize : String → Except String (List RasterPage)
  sharpResize : String → Except String Unit
  imageMeta : String → Except String ImgMeta

/-! ## ImageProcessor (image-processor.ts) -/

/-- An `ImageProcessingResult` (image-processor.ts lines 9-14). -/
structure ImageProcessingResult where
  description : String
  imagePath : String
  source : String
  pageNumber : Option Nat := none
deriving DecidableEq, Repr

/-- The temp directory `path.join(os.tmpdir(), 'lance-mcp-images')`. -/
def tempDirPath : String := "/tmp/lance-mcp-images"

/-- `ImageProcessor.extractImagesFromPDF` (lines 29-55): on a successful
conversion, keep the `path` of every page result that has one; a thrown
error is caught and yields `[]`. -/
def extractImagesFromPDF (env : Env) (pdfPath : String) (_tempDir : String) :
    List String :=
  match env.rasterize pdfPath with
  | Except.ok results => results.filterMap (fun r => r.path)
  | Except.error _ => []

/-- `ImageProcessor.processStandaloneImage` (lines 60-78): resize via sharp
into `tempDir/optimized_<basename>`; a thrown error is caught and the
original path is returned. -/
def processStandaloneImage (env : Env) (imagePath tempDir : String) : String :=
  let optimizedPath := pathJoin tempDir ("optimized_" ++ basename imagePath)
  match env.sharpResize imagePath with
  | Except.ok _ => optimizedPath
  | Except.error _ => imagePath

/-- `ImageProcessor.generateImageDescription` (lines 83-114): a metadata-only
description; the sharp `metadata()` call is guarded by its own try/catch,
and the dimension/format fragments are appended only for truthy values. -/
def generateImageDescription (env : Env) (imagePath : String) : String :=
  let fileName := basename imagePath
  let fileExt := toLowerStr (extname imagePath)
  let base := "Image file: " ++ fileName ++ " (" ++ fileExt ++ ")"
  let withMeta :=
    match env.imageMeta imagePath with
    | Except.ok m =>
      (match m.width, m.height with
       | some w, some h =>
         if w ≠ 0 ∧ h ≠ 0 then
           base ++ " - Dimensions: " ++ toString w ++ "x" ++ toString h
         else base
       | _, _ => base) ++
      (match m.format with
       | some f => if f ≠ "" then " - Format: " ++ f else ""
       | none => "")
    | Except.error _ => base
  withMeta ++ " - Visual content analysis will be available when vision model is properly configured"

/-- The indexing loop of `processImagesFromPDF`: page `i` (zero-based) gets
`pageNumber: i + 1`; `k` is the number of already-numbered pages. -/
def numberResults (env : Env) (pdfPath : String) :
    Nat → List String → List ImageProcessingResult
  | _, [] => []
  | k, p :: ps =>
    { description := generateImageDescription env p
      imagePath := p
      source := pdfPath
      pageNumber := some (k + 1) } :: numberResults env pdfPath (k + 1) ps

/-- `ImageProcessor.processImagesFromPDF` (lines 134-156): one result per
extracted image path, numbered sequentially from 1, `source` the PDF path,
`imagePath` the extracted page image. -/
def processImagesFromPDF (env : Env) (pdfPath tempDir : String) :
    List ImageProcessingResult :=
  numberResults env pdfPath 0 (extractImagesFromPDF env pdfPath tempDir)

/-- `ImageProcessor.processStandaloneImageFile` (lines 161-175): optimize,
describe, and return a result with `source` the original path and no
`pageNumber`.  (The catch branch returning null is unreachable in the
model: both callees catch their own errors.) -/
def processStandaloneImageFile (env : Env) (imagePath tempDir : String) :
    Option ImageProcessingResult :=
  let optimizedPath := processStandaloneImage env imagePath tempDir
  some { description := generateImageDescription env optimizedPath
         imagePath := optimizedPath
         source := imagePath
         pageNumber := none }

/-- The spread `...(result.pageNumber && { pageNumber: result.pageNumber })`:
the field is kept only when truthy (present and non-zero). -/
def truthyPageNumber : Option Nat → Option Nat
  | some n => if n = 0 then none else some n
  | none => none

/-- `ImageProcessor.resultsToDocuments` (lines 180-194). -/
def resultsToDocuments (results : List ImageProcessingResult) : List Doc :=
  results.map (fun r =>
    { pageContent := "[IMAGE] " ++ r.description
      source := r.source
      loc := none
      dtype := some "image"
      imagePath := some r.imagePath
      pageNumber := truthyPageNumber r.pageNumber })

/-- `ImageProcessor.isSupportedImageFormat` (lines 199-203). -/
def isSupportedImageFormat (filePath : String) : Bool :=
  let ext := toLowerStr (extname filePath)
  [".png", ".jpg", ".jpeg", ".gif", ".webp", ".bmp", ".tiff", ".tif"].contains ext

/-! ## Seed orchestration (broad_chunks_search.ts seed script) -/

/-- First-occurrence deduplication with an accumulator of already-seen
keys. -/
def dedupFirstAux (seen : List String) : List String → List String
  | [] => []
  | x :: xs =>
    if seen.contains x then dedupFirstAux seen xs
    else x :: dedupFirstAux (seen ++ [x]) xs

/-- First-occurrence deduplication: the key order of the `docsBySource`
object built by `reduce` (JS object string keys iterate in insertion
order), and likewise the iteration order of a JS `Set`. -/
def dedupFirst (l : List String) : List String :=
  dedupFirstAux [] l

/-- The per-source loop of `processDocuments` (lines 264-279): for each
source in order, hash the file content; a source whose hash is already
cataloged is pushed onto `skipSources`, otherwise a summarized catalog
record is staged.  `skipExistsCheck` short-circuits the lookup. -/
def processSources (env : Env) (table : Option (List CatalogRow))
    (skipExistsCheck : Bool) (rawDocs : List RawDoc) :
    List String → List String × List CatDoc
  | [] => ([], [])
  | source :: rest =>
    let hash := env.hashFn (env.fileContent source)
    let ex := if skipExistsCheck then false
              else catalogRecordExists (table.getD []) hash
    let r := processSources env table skipExistsCheck rawDocs rest
    if ex then (source :: r.1, r.2)
    else (r.1,
          { pageContent := env.summarize (rawDocs.filter (fun d => d.source = source))
            source := source
            hash := hash } :: r.2)

/-- `processDocuments` (lines 249-282): group by source (first-occurrence
order) and run the per-source loop. -/
def processDocuments (env : Env) (rawDocs : List RawDoc)
    (table : Option (List CatalogRow)) (skipExistsCheck : Bool) :
    List String × List CatDoc :=
  processSources env table skipExistsCheck rawDocs
    (dedupFirst (rawDocs.map (fun d => d.source)))

/-! ## Chunk splitting

Modelled from the spec: the seed script delegates the actual splitting to
`RecursiveCharacterTextSplitter({chunkSize: 500, chunkOverlap: 10})` from
the langchain library, whose implementation is not part of this
repository; following spec section 4.5 it is modelled as fixed overlapping
character windows of `chunkSize` characters advancing by
`chunkSize - chunkOverlap`. -/

/-- The configured window size (seed script line 426). -/
def chunkSize : Nat := 500

/-- The configured overlap (seed script line 427). -/
def chunkOverlap : Nat := 10

/-- Modelled from the spec: split a character list into overlapping windows
of `chunkSize` with `chunkOverlap` overlap (the splitter itself lives in
the langchain library, outside this repository). -/
def splitText (s : List Char) : List (List Char) :=
  if s.length ≤ chunkSize then [s]
  else s.take chunkSize :: splitText (s.drop (chunkSize - chunkOverlap))
termination_by s.length
decreasing_by
  simp only [List.length_drop, chunkSize, chunkOverlap] at *
  omega

/-- Modelled from the spec: `splitter.splitDocuments` — each document's
text is split and every resulting chunk keeps the document's
`{ loc, source }` metadata, in document order. -/
def splitDocuments (docs : List RawDoc) : List Doc :=
  docs.flatMap (fun d =>
    (splitText d.pageContent.toList).map (fun c =>
      { pageContent := String.mk c
        source := d.source
        loc := some d.loc }))

/-! ## processImages and the full run -/

/-- `findImageFiles` (lines 285-304): the recursive directory scan, with
the directory tree abstracted as the list of all file paths under the
input root in scan order. -/
def findImageFiles (allFiles : List String) : List String :=
  allFiles.filter isSupportedImageFormat

/-- The `Set` of PDF sources built by `processImages` (lines 319-325): the
sources of non-skipped docs whose source ends (case-insensitively) in
`.pdf`, in insertion order. -/
def pdfSourcesOf (rawDocs : List RawDoc) (skipSources : List String) :
    List String :=
  dedupFirst
    ((rawDocs.filter (fun d =>
        !(skipSources.contains d.source) &&
        endsWithStr (toLowerStr d.source) ".pdf")).map (fun d => d.source))

/-- The PDF half of `processImages` (lines 318-332): each PDF source is run
through `processImagesFromPDF` and `resultsToDocuments`. -/
def pdfImageDocs (env : Env) (rawDocs : List RawDoc)
    (skipSources : List String) : List Doc :=
  (pdfSourcesOf rawDocs skipSources).flatMap (fun p =>
    resultsToDocuments (processImagesFromPDF env p tempDirPath))

/-- The standalone half of `processImages` (lines 336-344): every image
file under the input root is processed, with no dedup check. -/
def standaloneImageDocs (env : Env) (allFiles : List String) : List Doc :=
  (findImageFiles allFiles).flatMap (fun ip =>
    match processStandaloneImageFile env ip tempDirPath with
    | some r => resultsToDocuments [r]
    | none => [])

/-- `processImages` (lines 307-356): PDF-derived image documents, then
standalone image documents. -/
def processImages (env : Env) (rawDocs : List RawDoc)
    (skipSources : List String) (allFiles : List String) : List Doc :=
  pdfImageDocs env rawDocs skipSources ++ standaloneImageDocs env allFiles

/-- The outcome of one `seed` run (lines 358-452): what is staged for the
catalog table and for the chunks table. -/
structure RunResult where
  skipSources : List String
  catalogRecords : List CatDoc
  textChunks : List Doc
  imageChunks : List Doc
  allChunks : List Doc
deriving DecidableEq, Repr

/-- The pure content of `seed` (lines 358-452): dedup/summarize, drop
skipped sources from the text stream, process images, split, and
concatenate text chunks with image chunks.  `catalogTable = none` models a
catalog table that does not yet exist. -/
def seedRun (env : Env) (catalogTable : Option (List CatalogRow))
    (overwrite : Bool) (rawDocs : List RawDoc) (allFiles : List String) :
    RunResult :=
  let skipExistsCheck := overwrite || catalogTable.isNone
  let pd := processDocuments env rawDocs catalogTable skipExistsCheck
  let skipSources := pd.1
  let catalogRecords := pd.2
  let filteredRawDocs := rawDocs.filter (fun d => !(skipSources.contains d.source))
  let imageDocuments := processImages env rawDocs skipSources allFiles
  let textDocs := splitDocuments filteredRawDocs
  { skipSources := skipSources
    catalogRecords := catalogRecords
    textChunks := textDocs
    imageChunks := imageDocuments
    allChunks := textDocs ++ imageDocuments }

/-- Modelled from the spec: the sharp `resize(1024, 1024, { fit: 'inside',
withoutEnlargement: true })` call of `processStandaloneImage` is external
library code not in this repository; per spec section 4.4 it scales
`(w, h)` to fit within 1024x1024 preserving aspect ratio and never
upscales. -/
def fitInside1024 (w h : Nat) : Nat × Nat :=
  if w ≤ 1024 ∧ h ≤ 1024 then (w, h)
  else if h ≤ w then (1024, h * 1024 / w)
  else (w * 1024 / h, 1024)

/-! ## Concrete data used by witnesses and counterexamples -/

/-- A concrete environment: every file reads as "CONTENT", the hash of a
byte string `s` is `s ++ "#h"`, rasterization succeeds with no pages,
resize succeeds, and sharp metadata fails. -/
def envW : Env :=
  { fileContent := fun _ => "CONTENT"
    hashFn := fun s => s ++ "#h"
    summarize := fun _ => "a summary"
    rasterize := fun _ => Except.ok []
    sharpResize := fun _ => Except.ok ()
    imageMeta := fun _ => Except.error "metadata failed" }

/-- A catalog table from a previous run holding the hash of "/d/a.pdf". -/
def rowsW : List CatalogRow :=
  [{ source := "/d/a.pdf", hash := "CONTENT#h", summary := "a summary" }]

/-- The loaded text documents of the unchanged directory. -/
def rawDocsW : List RawDoc :=
  [{ source := "/d/a.pdf", loc := Loc.nullv, pageContent := "hello" }]

/-- All files under the unchanged input root: one PDF, one standalone
image. -/
def allFilesW : List String := ["/d/a.pdf", "/d/img.png"]

/-- A retriever returning one hit whose source is "/d/a.pdf", regardless
of the query. -/
def retrieverW : String → List SearchHit :=
  fun _ => [{ source := some "/d/a.pdf", loc := Loc.nullv, pageContent := "c" }]

/-- An environment whose rasterizer always throws. -/
def envRasterFail : Env :=
  { envW with rasterize := fun _ => Except.error "conversion failed" }

/-- An environment whose sharp resize always throws. -/
def envResizeFail : Env :=
  { envW with sharpResize := fun _ => Except.error "corrupt input" }

/-- Concrete pdf2pic output: two pages with paths, one without. -/
def pagesW : List RasterPage :=
  [{ path := some "/tmp/lance-mcp-images/a.1.png" }, { path := none },
   { path := some "/tmp/lance-mcp-images/a.2.png" }]

/-- An environment whose rasterizer returns `pagesW`. -/
def envRasterOk : Env :=
  { envW with rasterize := fun _ => Except.ok pagesW }

/-! ## Helper lemmas -/

/-- Membership in the deduplicated list, tracking the `seen` accumulator. -/
theorem mem_dedupFirstAux (x : String) :
    ∀ (l seen : List String), x ∈ dedupFirstAux seen l ↔ x ∈ l ∧ x ∉ seen := by
  intro l
  induction l with
  | nil => intro seen; simp [dedupFirstAux]
  | cons a as ih =>
    intro seen
    by_cases ha : a ∈ seen
    · have hc : seen.contains a = true := by simp [List.contains, ha]
      simp only [dedupFirstAux, hc, if_true, ih, List.mem_cons]
      constructor
      · intro h; exact ⟨Or.inr h.1, h.2⟩
      · rintro ⟨h1 | h1, h2⟩
        · exact absurd (h1 ▸ ha) h2
        · exact ⟨h1, h2⟩
    · have hc : seen.contains a = false := by simp [List.contains, ha]
      simp only [dedupFirstAux, hc, Bool.false_eq_true, if_false, List.mem_cons, ih,
        List.mem_append, List.mem_singleton]
      constructor
      · rintro (h | ⟨h1, h2⟩)
        · exact ⟨Or.inl h, h ▸ ha⟩
        · exact ⟨Or.inr h1, fun hs => h2 (Or.inl hs)⟩
      · rintro ⟨h1 | h1, h2⟩
        · exact Or.inl h1
        · by_cases hxa : x = a
          · exact Or.inl hxa
          · refine Or.inr ⟨h1, ?_⟩
            rintro (hs | hs | hs)
            · exact h2 hs
            · exact hxa hs
            · exact absurd hs (List.not_mem_nil x)

/-- `dedupFirst` preserves membership. -/
theorem mem_dedupFirst (x : String) (l : List String) :
    x ∈ dedupFirst l ↔ x ∈ l := by
  simp [dedupFirst, mem_dedupFirstAux]

/-- When every listed source's hash is already cataloged, the per-source
loop skips all of them and stages nothing. -/
theorem processSources_all_skip (env : Env) (rows : List CatalogRow)
    (rawDocs : List RawDoc) :
    ∀ l : List String,
      (∀ s ∈ l, catalogRecordExists rows (env.hashFn (env.fileContent s)) = true) →
      processSources env (some rows) false rawDocs l = (l, []) := by
  intro l
  induction l with
  | nil => intro _; rfl
  | cons a as ih =>
    intro h
    have ha := h a (List.mem_cons_self a as)
    have hrest := ih (fun s hs => h s (List.mem_cons_of_mem a hs))
    simp only [processSources, Option.getD, Bool.false_eq_true, if_false, ha, if_true,
      hrest]

/-- A `flatMap` over functions that all return `[]` is `[]`. -/
theorem flatMap_eq_nil_of {α β : Type} (l : List α) (f : α → List β)
    (h : ∀ x ∈ l, f x = []) : l.flatMap f = [] := by
  induction l with
  | nil => rfl
  | cons a as ih =>
    simp only [List.flatMap_cons, h a (List.mem_cons_self a as), List.nil_append]
    exact ih (fun x hx => h x (List.mem_cons_of_mem a hx))

/-- Unfolding `splitText` on a short input. -/
theorem splitText_le (s : List Char) (h : s.length ≤ chunkSize) :
    splitText s = [s] := by
  rw [splitText]
  simp [h]

/-- Unfolding `splitText` on a long input. -/
theorem splitText_gt (s : List Char) (h : chunkSize < s.length) :
    splitText s =
      s.take chunkSize :: splitText (s.drop (chunkSize - chunkOverlap)) := by
  rw [splitText]
  simp [Nat.not_le.mpr h]

/-- Fuel-indexed characterization of the window at index `i`. -/
theorem splitText_getElem_aux (n : Nat) :
    ∀ s : List Char, s.length ≤ n → ∀ i, i < (splitText s).length →
      (splitText s)[i]? =
        some ((s.drop ((chunkSize - chunkOverlap) * i)).take chunkSize) := by
  induction n with
  | zero =>
    intro s hs i hi
    have hnil : s = [] := List.length_eq_zero.mp (Nat.le_zero.mp hs)
    subst hnil
    rw [splitText_le [] (by simp [chunkSize])] at hi ⊢
    have : i = 0 := by simpa using Nat.lt_one_iff.mp (by simpa using hi)
    subst this
    simp
  | succ n ih =>
    intro s hs i hi
    by_cases hle : s.length ≤ chunkSize
    · rw [splitText_le s hle] at hi ⊢
      have : i = 0 := Nat.lt_one_iff.mp (by simpa using hi)
      subst this
      simp [List.take_of_length_le hle]
    · rw [splitText_gt s (Nat.not_le.mp hle)] at hi ⊢
      cases i with
      | zero => simp
      | succ j =>
        simp only [List.getElem?_cons_succ]
        have hlen : (s.drop (chunkSize - chunkOverlap)).length ≤ n := by
          simp only [List.length_drop, chunkSize, chunkOverlap] at *
          omega
        have hj : j < (splitText (s.drop (chunkSize - chunkOverlap))).length := by
          simpa using Nat.lt_of_succ_lt_succ (by simpa using hi)
        rw [ih _ hlen j hj, List.drop_drop]
        have harith : (chunkSize - chunkOverlap) + (chunkSize - chunkOverlap) * j =
            (chunkSize - chunkOverlap) * (j + 1) := by ring
        rw [harith]

/-- The window at index `i` of `splitText s` is the `chunkSize`-character
window starting at offset `(chunkSize - chunkOverlap) * i`. -/
theorem splitText_getElem (s : List Char) (i : Nat)
    (hi : i < (splitText s).length) :
    (splitText s)[i]? =
      some ((s.drop ((chunkSize - chunkOverlap) * i)).take chunkSize) :=
  splitText_getElem_aux s.length s (Nat.le_refl _) i hi

/-- Every chunk produced by `splitText` has at most `chunkSize` characters. -/
theorem splitText_chunk_le (s : List Char) (c : List Char)
    (hc : c ∈ splitText s) : c.length ≤ chunkSize := by
  obtain ⟨i, hi, hget⟩ := List.mem_iff_getElem.mp hc
  have h := splitText_getElem s i hi
  rw [List.getElem?_eq_getElem hi, hget] at h
  have := Option.some.inj h
  rw [this]
  exact List.length_take_le _ _

/-- Fuel-indexed overlap property: consecutive windows share exactly
`chunkOverlap` characters. -/
theorem splitText_overlap_aux (n : Nat) :
    ∀ s : List Char, s.length ≤ n → ∀ i, i + 1 < (splitText s).length →
      ((splitText s)[i]?.getD []).drop (chunkSize - chunkOverlap) =
        ((splitText s)[i + 1]?.getD []).take chunkOverlap := by
  induction n with
  | zero =>
    intro s hs i hi
    have hnil : s = [] := List.length_eq_zero.mp (Nat.le_zero.mp hs)
    subst hnil
    rw [splitText_le [] (by simp [chunkSize])] at hi
    simp at hi
  | succ n ih =>
    intro s hs i hi
    by_cases hle : s.length ≤ chunkSize
    · rw [splitText_le s hle] at hi
      simp at hi
    · rw [splitText_gt s (Nat.not_le.mp hle)] at hi ⊢
      have hlen : (s.drop (chunkSize - chunkOverlap)).length ≤ n := by
        simp only [List.length_drop, chunkSize, chunkOverlap] at *
        omega
      cases i with
      | zero =>
        have h0 : 0 < (splitText (s.drop (chunkSize - chunkOverlap))).length := by
          simpa using Nat.lt_of_succ_lt_succ (by simpa using hi)
        rw [List.getElem?_cons_zero, List.getElem?_cons_succ,
          splitText_getElem _ 0 h0]
        simp only [Option.getD_some, Nat.mul_zero, List.drop_zero]
        rw [List.drop_take, List.take_take]
        have h1 : chunkSize - (chunkSize - chunkOverlap) = chunkOverlap := by
          simp [chunkSize, chunkOverlap]
        have h2 : min chunkOverlap chunkSize = chunkOverlap := by
          simp [chunkSize, chunkOverlap]
        rw [h1, h2]
      | succ j =>
        simp only [List.getElem?_cons_succ]
        exact ih _ hlen j (by simpa using Nat.lt_of_succ_lt_succ (by simpa using hi))

/-- Overlap property of `splitText` at any index. -/
theorem splitText_overlap (s : List Char) (i : Nat)
    (hi : i + 1 < (splitText s).length) :
    ((splitText s)[i]?.getD []).drop (chunkSize - chunkOverlap) =
      ((splitText s)[i + 1]?.getD []).take chunkOverlap :=
  splitText_overlap_aux s.length s (Nat.le_refl _) i hi

/-- The scaled dimensions fit inside the box and never exceed the input. -/
theorem fitInside1024_bounds (w h : Nat) :
    (fitInside1024 w h).1 ≤ 1024 ∧ (fitInside1024 w h).2 ≤ 1024 ∧
    (fitInside1024 w h).1 ≤ w ∧ (fitInside1024 w h).2 ≤ h := by
  unfold fitInside1024
  by_cases hin : w ≤ 1024 ∧ h ≤ 1024
  · simp [hin]
  · simp only [hin, if_false]
    by_cases hwh : h ≤ w
    · have hw : 1024 < w := by
        rcases Nat.lt_or_ge 1024 w with hlt | hge
        · exact hlt
        · exact absurd ⟨hge, Nat.le_trans hwh hge⟩ hin
      have hwpos : 0 < w := Nat.lt_of_le_of_lt (Nat.zero_le _) hw
      have hb : h * 1024 / w ≤ 1024 := by
        calc h * 1024 / w ≤ w * 1024 / w :=
              Nat.div_le_div_right (Nat.mul_le_mul_right _ hwh)
          _ = 1024 := Nat.mul_div_cancel_left _ hwpos
      have hb2 : h * 1024 / w ≤ h := by
        calc h * 1024 / w ≤ h * w / w :=
              Nat.div_le_div_right (Nat.mul_le_mul_left _ (Nat.le_of_lt hw))
          _ = h := Nat.mul_div_cancel _ hwpos
      simp [hwh, hb, hb2, Nat.le_of_lt hw]
    · have hh : 1024 < h := by
        rcases Nat.lt_or_ge 1024 h with hlt | hge
        · exact hlt
        · exact absurd ⟨Nat.le_trans (Nat.le_of_not_le hwh) hge, hge⟩ hin
      have hhpos : 0 < h := Nat.lt_of_le_of_lt (Nat.zero_le _) hh
      have hb : w * 1024 / h ≤ 1024 := by
        calc w * 1024 / h ≤ h * 1024 / h :=
              Nat.div_le_div_right (Nat.mul_le_mul_right _ (Nat.le_of_not_le hwh))
          _ = 1024 := Nat.mul_div_cancel_left _ hhpos
      have hb2 : w * 1024 / h ≤ w := by
        calc w * 1024 / h ≤ w * h / h :=
              Nat.div_le_div_right (Nat.mul_le_mul_left _ (Nat.le_of_lt hh))
          _ = w := Nat.mul_div_cancel _ hhpos
      simp [hwh, hb, hb2, Nat.le_of_lt hh]

/-- The image paths of the numbered PDF results, in order. -/
theorem numberResults_map_imagePath (env : Env) (pdfPath : String) :
    ∀ (ps : List String) (k : Nat),
      (numberResults env pdfPath k ps).map (fun r => r.imagePath) = ps := by
  intro ps
  induction ps with
  | nil => intro k; rfl
  | cons p ps ih => intro k; simp [numberResults, ih]

/-- Every numbered PDF result carries the PDF path as its source. -/
theorem numberResults_map_source (env : Env) (pdfPath : String) :
    ∀ (ps : List String) (k : Nat),
      (numberResults env pdfPath k ps).map (fun r => r.source) =
        ps.map (fun _ => pdfPath) := by
  intro ps
  induction ps with
  | nil => intro k; rfl
  | cons p ps ih => intro k; simp [numberResults, ih]

/-- The page numbers of the numbered PDF results count up from `k + 1`. -/
theorem numberResults_map_pageNumber (env : Env) (pdfPath : String) :
    ∀ (ps : List String) (k : Nat),
      (numberResults env pdfPath k ps).map (fun r => r.pageNumber) =
        (List.range ps.length).map (fun i => some (k + i + 1)) := by
  intro ps
  induction ps with
  | nil => intro k; rfl
  | cons p ps ih =>
    intro k
    simp only [numberResults, List.map_cons, List.length_cons,
      List.range_succ_eq_map, List.map_map, ih]
    congr 1
    refine List.map_congr_left (fun i _ => ?_)
    simp only [Function.comp_apply, Nat.succ_eq_add_one]
    congr 1
    omega

example : basename "/d/img.png" = "img.png" := by decide
example : basename "img.png" = "img.png" := by decide
example : extname "/a/b.tar.gz" = ".gz" := by decide
example : extname "/a/.hidden" = "" := by decide
example : extname "noext" = "" := by decide
example : toLowerStr "A.PdF" = "a.pdf" := by decide
example : endsWithStr "a.pdf" ".pdf" = true := by decide
example : extractPageInfo (Loc.obj (some (JsPrim.num 3)) none none) = some "3" := by decide
example : extractPageInfo (Loc.obj none none (some ⟨some 10, some 20⟩)) = some "Line 10-20" := by decide
example : extractPageInfo (Loc.num 0) = none := by decide
example : extractPageInfo (Loc.str "p5") = some "p5" := by decide

/-! ## Claims -/

/-- Claim C1: the catalog deduplication check returns no-skip (false)
whenever an unconditional overwrite is requested or the catalog table does
not exist — for every table content, i.e. without consulting the table —
and otherwise returns skip (true) iff the table holds at least one record
whose hash field is exactly string-equal to the given hash; consequently a
byte-identical copy of an already-cataloged file under a different path
(same file content, hence same hash) is still skipped. -/
theorem C1_dedup_check :
    (∀ (h : String) (rows : List CatalogRow),
      dedupShouldSkip (some rows) true h = false) ∧
    (∀ (h : String) (overwrite : Bool),
      dedupShouldSkip none overwrite h = false) ∧
    (∀ (h : String) (rows : List CatalogRow),
      dedupShouldSkip (some rows) false h = true ↔ ∃ r ∈ rows, r.hash = h) ∧
    (∀ (env : Env) (rows : List CatalogRow) (pathA pathB summary : String),
      env.fileContent pathB = env.fileContent pathA →
      CatalogRow.mk pathA (env.hashFn (env.fileContent pathA)) summary ∈ rows →
      dedupShouldSkip (some rows) false (env.hashFn (env.fileContent pathB)) = true) := by
  have hiff : ∀ (h : String) (rows : List CatalogRow),
      dedupShouldSkip (some rows) false h = true ↔ ∃ r ∈ rows, r.hash = h := by
    intro h rows
    have hunfold : dedupShouldSkip (some rows) false h = catalogRecordExists rows h := rfl
    rw [hunfold, catalogRecordExists, decide_eq_true_iff, List.length_take, Nat.lt_min]
    constructor
    · intro hlt
      obtain ⟨r, hr⟩ := List.exists_mem_of_length_pos hlt.2
      have hr2 := List.mem_filter.mp hr
      exact ⟨r, hr2.1, of_decide_eq_true hr2.2⟩
    · rintro ⟨r, hr, hh⟩
      have hmem : r ∈ rows.filter (fun r => decide (r.hash = h)) :=
        List.mem_filter.mpr ⟨hr, by simp [hh]⟩
      exact ⟨Nat.zero_lt_one, List.length_pos.mpr (List.ne_nil_of_mem hmem)⟩
  refine ⟨fun h rows => rfl, fun h ow => by simp [dedupShouldSkip], hiff, ?_⟩
  intro env rows pathA pathB summary hcontent hmem
  rw [hcontent]
  exact (hiff _ rows).mpr ⟨_, hmem, rfl⟩

/-- Witness for C1: a table holding the hash of "/d/a.pdf"'s content makes
the check skip "/d/b.pdf", whose content (hence hash) is identical. -/
theorem C1_dedup_check_witness :
    dedupShouldSkip
      (some [CatalogRow.mk "/d/a.pdf" (envW.hashFn (envW.fileContent "/d/a.pdf")) "a summary"])
      false (envW.hashFn (envW.fileContent "/d/b.pdf")) = true :=
  C1_dedup_check.2.2.2 envW
    [CatalogRow.mk "/d/a.pdf" (envW.hashFn (envW.fileContent "/d/a.pdf")) "a summary"]
    "/d/a.pdf" "/d/b.pdf" "a summary" (by decide) (by decide)

/-- Claim C3, counterexample: the claim says a primitive number location is
rendered verbatim, but for the number 0 the code's initial falsy test
(`if (!loc) return null`) fires and no page annotation is produced. -/
theorem C3_counterexample :
    extractPageInfo (Loc.num 0) = none ∧
    extractPageInfo (Loc.num 0) ≠ some (jsToString (JsPrim.num 0)) := by
  decide

/-- Claim C3 (amended): the formatter normalizes location metadata with
first match winning in the order pageNumber field, page field, line-range
object (rendered "Line X" when the upper bound is absent or 0, else
"Line X-Y"), then truthy primitive string or number rendered verbatim;
a falsy location value (absent/null, the number 0, or the empty string)
and an object with none of the fields yield no page annotation at all.
Examples: pageNumber 3 gives annotation "Page 3"; lines from 10 to 20
gives "Line 10-20"; an empty or absent location gives no page annotation;
the raw string "p5" gives annotation "p5". -/
theorem C3_location_normalization :
    (∀ (v : JsPrim) (pg : Option JsPrim) (ln : Option Lines),
      extractPageInfo (Loc.obj (some v) pg ln) = some (jsToString v)) ∧
    (∀ (v : JsPrim) (ln : Option Lines),
      extractPageInfo (Loc.obj none (some v) ln) = some (jsToString v)) ∧
    (∀ (f t : Int), t ≠ 0 →
      extractPageInfo (Loc.obj none none (some ⟨some f, some t⟩)) =
        some ("Line " ++ toString f ++ "-" ++ toString t)) ∧
    (∀ f : Int, extractPageInfo (Loc.obj none none (some ⟨some f, none⟩)) =
        some ("Line " ++ toString f)) ∧
    (∀ f : Int, extractPageInfo (Loc.obj none none (some ⟨some f, some 0⟩)) =
        some ("Line " ++ toString f)) ∧
    (∀ s : String, s ≠ "" → extractPageInfo (Loc.str s) = some s) ∧
    (∀ n : Int, n ≠ 0 → extractPageInfo (Loc.num n) = some (toString n)) ∧
    extractPageInfo Loc.nullv = none ∧
    extractPageInfo (Loc.str "") = none ∧
    extractPageInfo (Loc.num 0) = none ∧
    (∀ t : Option Int,
      extractPageInfo (Loc.obj none none (some ⟨none, t⟩)) = none) ∧
    extractPageInfo (Loc.obj none none none) = none ∧
    pageAnnot (Loc.obj (some (JsPrim.num 3)) none none) = " (Page 3)" ∧
    pageAnnot (Loc.obj none none (some ⟨some 10, some 20⟩)) = " (Page Line 10-20)" ∧
    pageAnnot Loc.nullv = "" ∧
    pageAnnot (Loc.str "p5") = " (Page p5)" := by
  refine ⟨fun v pg ln => rfl, fun v ln => rfl, ?_, ?_, ?_, ?_, ?_,
    rfl, by decide, by decide, fun t => rfl, rfl, by decide, by decide, by decide,
    by decide⟩
  · intro f t ht
    simp [extractPageInfo, linesToSuffix, ht, String.append_assoc]
  · intro f
    simp [extractPageInfo, linesToSuffix]
  · intro f
    simp [extractPageInfo, linesToSuffix]
  · intro s hs
    simp [extractPageInfo, hs]
  · intro n hn
    simp [extractPageInfo, hn]

/-- Witness for C3: the raw string "p5" is rendered verbatim. -/
theorem C3_location_normalization_witness :
    extractPageInfo (Loc.str "p5") = some "p5" :=
  C3_location_normalization.2.2.2.2.2.1 "p5" (by decide)

/-- Claim C4, counterexample: with the empty-string source the filter is
skipped, so the formatted output is built from a hit whose source is
"/d/a.pdf" — not string-equal to the given source — contradicting the
claim for every source string. -/
theorem C4_counterexample :
    (retrieverW "q").filter (fun r => r.source = some "") = [] ∧
    chunksSearchExecute retrieverW "q" "" ≠
      formatResultsWithReferences
        (some ((retrieverW "q").filter (fun r => r.source = some ""))) ∧
    chunksSearchExecute retrieverW "q" "" ≠ "No results found." := by
  decide

/-- Claim C4 (amended): for every query text and nonempty source string,
chunks_search builds its formatted output from exactly the retrieved hits
whose metadata source field is string-equal to the given source, filtering
client-side after retrieval (the retriever is invoked on the query text
alone); when the given source is the empty string the filter is skipped
entirely. -/
theorem C4_source_filter :
    ∀ (retriever : String → List SearchHit) (text source : String),
      source ≠ "" →
      chunksSearchExecute retriever text source =
        formatResultsWithReferences
          (some ((retriever text).filter (fun r => r.source = some source))) ∧
      ∀ r ∈ (retriever text).filter (fun r => r.source = some source),
        r.source = some source := by
  intro retriever text source hs
  constructor
  · simp [chunksSearchExecute, hs]
  · intro r hr
    have := List.of_mem_filter hr
    exact of_decide_eq_true this

/-- Witness for C4: the exact-match filter keeps the single hit whose
source is "/d/a.pdf". -/
theorem C4_source_filter_witness :
    chunksSearchExecute retrieverW "q" "/d/a.pdf" =
      formatResultsWithReferences
        (some ((retrieverW "q").filter (fun r => r.source = some "/d/a.pdf"))) :=
  (C4_source_filter retrieverW "q" "/d/a.pdf" (by decide)).1

/-- Claim C5: an empty hit list, and a missing hit list, format to exactly
the literal "No results found." in each search operation's formatter
(`formatResultsWithReferences` is shared verbatim by chunks_search and
all_chunks_search; catalog_search has its own copy without the page
annotation). -/
theorem C5_empty_results_message :
    formatResultsWithReferences none = "No results found." ∧
    formatResultsWithReferences (some []) = "No results found." ∧
    catalogFormatResultsWithReferences none = "No results found." ∧
    catalogFormatResultsWithReferences (some []) = "No results found." :=
  ⟨rfl, rfl, rfl, rfl⟩

/-- Claim C10: the chunks_search input schema declares source as required,
yet when the provided source is the empty string the truthiness check
`if (params.source)` fails, the post-retrieval filter is skipped entirely,
and the formatted output is built from all retrieved hits regardless of
their source field. -/
theorem C10_empty_source_skips_filter :
    "source" ∈ chunksSearchInputSchema.required ∧
    ∀ (retriever : String → List SearchHit) (text : String),
      chunksSearchExecute retriever text "" =
        formatResultsWithReferences (some (retriever text)) := by
  constructor
  · decide
  · intro retriever text
    simp [chunksSearchExecute]

/-- Claim C2, counterexample: a second run over an unchanged directory
holding the already-cataloged "/d/a.pdf" and the standalone image
"/d/img.png" stages zero new catalog records, yet re-adds a chunk record
for the unchanged source "/d/img.png" — standalone images bypass the
catalog dedup check, contradicting the claim's blanket "chunk records are
not re-added for unchanged sources". -/
theorem C2_counterexample :
    catalogRecordExists rowsW (envW.hashFn (envW.fileContent "/d/a.pdf")) = true ∧
    (seedRun envW (some rowsW) false rawDocsW allFilesW).catalogRecords = [] ∧
    (seedRun envW (some rowsW) false rawDocsW allFilesW).allChunks.map
        (fun d => d.source) = ["/d/img.png"] ∧
    (seedRun envW (some rowsW) false rawDocsW allFilesW).allChunks ≠ [] := by
  decide

/-- Claim C2 (amended): on a second ingestion of an unchanged directory
without overwrite — every loaded source's content hash already in the
catalog — the run stages zero new catalog records, every source is
skipped, no text chunks and no PDF-derived image chunks are re-added; the
chunk batch consists exactly of the standalone image documents, which are
always reprocessed and re-added. -/
theorem C2_second_run :
    ∀ (env : Env) (rows : List CatalogRow) (rawDocs : List RawDoc)
      (allFiles : List String),
      (∀ d ∈ rawDocs,
        catalogRecordExists rows (env.hashFn (env.fileContent d.source)) = true) →
      (seedRun env (some rows) false rawDocs allFiles).catalogRecords = [] ∧
      (seedRun env (some rows) false rawDocs allFiles).skipSources =
        dedupFirst (rawDocs.map (fun d => d.source)) ∧
      (seedRun env (some rows) false rawDocs allFiles).textChunks = [] ∧
      (seedRun env (some rows) false rawDocs allFiles).imageChunks =
        standaloneImageDocs env allFiles ∧
      (seedRun env (some rows) false rawDocs allFiles).allChunks =
        standaloneImageDocs env allFiles := by
  intro env rows rawDocs allFiles hall
  have hsrc : ∀ s ∈ dedupFirst (rawDocs.map (fun d => d.source)),
      catalogRecordExists rows (env.hashFn (env.fileContent s)) = true := by
    intro s hs
    obtain ⟨d, hd, hds⟩ := List.mem_map.mp ((mem_dedupFirst s _).mp hs)
    exact hds ▸ hall d hd
  have hps := processSources_all_skip env rows rawDocs _ hsrc
  have hpd : processDocuments env rawDocs (some rows) false =
      (dedupFirst (rawDocs.map (fun d => d.source)), []) := by
    rw [processDocuments]; exact hps
  have hmemd : ∀ d ∈ rawDocs,
      d.source ∈ dedupFirst (rawDocs.map (fun d => d.source)) := by
    intro d hd
    exact (mem_dedupFirst _ _).mpr (List.mem_map.mpr ⟨d, hd, rfl⟩)
  have hfilter : rawDocs.filter
      (fun d => !((dedupFirst (rawDocs.map (fun d => d.source))).contains d.source)) =
      [] := by
    rw [List.filter_eq_nil_iff]
    intro d hd
    simp [hmemd d hd]
  have hpdfsrc : pdfSourcesOf rawDocs (dedupFirst (rawDocs.map (fun d => d.source))) =
      [] := by
    rw [pdfSourcesOf]
    have : rawDocs.filter (fun d =>
        !((dedupFirst (rawDocs.map (fun d => d.source))).contains d.source) &&
        endsWithStr (toLowerStr d.source) ".pdf") = [] := by
      rw [List.filter_eq_nil_iff]
      intro d hd
      simp [hmemd d hd]
    rw [this]
    rfl
  have hpdf : pdfImageDocs env rawDocs
      (dedupFirst (rawDocs.map (fun d => d.source))) = [] := by
    rw [pdfImageDocs, hpdfsrc]
    rfl
  have hrun : seedRun env (some rows) false rawDocs allFiles =
      { skipSources := dedupFirst (rawDocs.map (fun d => d.source))
        catalogRecords := []
        textChunks := []
        imageChunks := standaloneImageDocs env allFiles
        allChunks := standaloneImageDocs env allFiles } := by
    rw [seedRun]
    simp only [Option.isNone_some, Bool.or_false, hpd, processImages, hpdf,
      hfilter, splitDocuments, List.flatMap_nil, List.nil_append]
  refine ⟨?_, ?_, ?_, ?_, ?_⟩ <;> rw [hrun]

/-- Witness for C2: on the concrete unchanged directory the second run
stages nothing for the catalog and only the standalone image chunk. -/
theorem C2_second_run_witness :
    (seedRun envW (some rowsW) false rawDocsW allFilesW).catalogRecords = [] ∧
    (seedRun envW (some rowsW) false rawDocsW allFilesW).skipSources =
      dedupFirst (rawDocsW.map (fun d => d.source)) ∧
    (seedRun envW (some rowsW) false rawDocsW allFilesW).textChunks = [] ∧
    (seedRun envW (some rowsW) false rawDocsW allFilesW).imageChunks =
      standaloneImageDocs envW allFilesW ∧
    (seedRun envW (some rowsW) false rawDocsW allFilesW).allChunks =
      standaloneImageDocs envW allFilesW :=
  C2_second_run envW rowsW rawDocsW allFilesW (by decide)

/-- Claim C6: the chunk splitter cuts each non-skipped document's text
into overlapping windows of chunkSize = 500 characters with chunkOverlap =
10 characters of overlap (window i is the 500-character window at offset
490 * i, and consecutive windows share exactly the 10-character seam),
preserves the document's source and loc metadata on every resulting chunk,
emits chunks in original document order, and is deterministic. -/
theorem C6_chunk_splitter :
    (∀ (s : List Char) (i : Nat), i < (splitText s).length →
      (splitText s)[i]? =
        some ((s.drop ((chunkSize - chunkOverlap) * i)).take chunkSize)) ∧
    (∀ (s c : List Char), c ∈ splitText s → c.length ≤ chunkSize) ∧
    (∀ (s : List Char) (i : Nat), i + 1 < (splitText s).length →
      ((splitText s)[i]?.getD []).drop (chunkSize - chunkOverlap) =
        ((splitText s)[i + 1]?.getD []).take chunkOverlap) ∧
    chunkSize = 500 ∧ chunkOverlap = 10 ∧
    (∀ (d : RawDoc) (ds : List RawDoc),
      splitDocuments (d :: ds) =
        (splitText d.pageContent.toList).map (fun c =>
          { pageContent := String.mk c, source := d.source, loc := some d.loc }) ++
        splitDocuments ds) ∧
    (∀ (docs : List RawDoc) (ch : Doc), ch ∈ splitDocuments docs →
      ∃ d ∈ docs, ∃ c ∈ splitText d.pageContent.toList,
        ch = { pageContent := String.mk c, source := d.source, loc := some d.loc }) ∧
    (∀ s t : List Char, s = t → splitText s = splitText t) := by
  refine ⟨splitText_getElem, splitText_chunk_le, splitText_overlap, rfl, rfl,
    ?_, ?_, fun s t h => h ▸ rfl⟩
  · intro d ds
    simp [splitDocuments]
  · intro docs ch hch
    simp only [splitDocuments, List.mem_flatMap, List.mem_map] at hch
    obtain ⟨d, hd, c, hc, hEq⟩ := hch
    exact ⟨d, hd, c, hc, hEq.symm⟩

/-- Witness for C6: the first window of a two-character text is the window
at offset 0. -/
theorem C6_chunk_splitter_witness :
    (splitText "ab".toList)[0]? =
      some (("ab".toList.drop ((chunkSize - chunkOverlap) * 0)).take chunkSize) :=
  C6_chunk_splitter.1 "ab".toList 0
    (by rw [splitText_le "ab".toList (by decide)]; simp)

/-- Claim C7: if the whole image extraction from one PDF throws, the error
is caught and the extraction returns zero images for that PDF; with every
rasterization failing, the rest of ingestion still produces the standalone
image documents, so the run does not fail. -/
theorem C7_pdf_extraction_failure :
    (∀ (env : Env) (pdfPath tempDir err : String),
      env.rasterize pdfPath = Except.error err →
      extractImagesFromPDF env pdfPath tempDir = []) ∧
    (∀ (env : Env) (pdfPath tempDir err : String),
      env.rasterize pdfPath = Except.error err →
      processImagesFromPDF env pdfPath tempDir = []) ∧
    (∀ (env : Env) (rawDocs : List RawDoc) (skipSources allFiles : List String),
      (∀ p : String, ∃ e, env.rasterize p = Except.error e) →
      processImages env rawDocs skipSources allFiles =
        standaloneImageDocs env allFiles) := by
  have h1 : ∀ (env : Env) (pdfPath tempDir err : String),
      env.rasterize pdfPath = Except.error err →
      extractImagesFromPDF env pdfPath tempDir = [] := by
    intro env p t e he
    simp [extractImagesFromPDF, he]
  have h2 : ∀ (env : Env) (pdfPath tempDir err : String),
      env.rasterize pdfPath = Except.error err →
      processImagesFromPDF env pdfPath tempDir = [] := by
    intro env p t e he
    rw [processImagesFromPDF, h1 env p t e he]
    rfl
  refine ⟨h1, h2, ?_⟩
  intro env rawDocs skipSources allFiles hall
  rw [processImages]
  have hnil : pdfImageDocs env rawDocs skipSources = [] := by
    rw [pdfImageDocs]
    apply flatMap_eq_nil_of
    intro p _
    obtain ⟨e, he⟩ := hall p
    rw [h2 env p tempDirPath e he]
    rfl
  rw [hnil, List.nil_append]

/-- Witness for C7: with the always-failing rasterizer, ingestion still
yields exactly the standalone image documents. -/
theorem C7_pdf_extraction_failure_witness :
    processImages envRasterFail rawDocsW [] allFilesW =
      standaloneImageDocs envRasterFail allFilesW :=
  C7_pdf_extraction_failure.2.2 envRasterFail rawDocsW [] allFilesW
    (fun _ => ⟨"conversion failed", rfl⟩)

/-- Claim C8: when the sharp resize throws, processStandaloneImage returns
the original un-normalized image path; on success it returns the optimized
path under the temp directory, and the (spec-modelled) fit-inside resize
keeps both dimensions within 1024 without upscaling. -/
theorem C8_standalone_image_fallback :
    (∀ (env : Env) (imagePath tempDir err : String),
      env.sharpResize imagePath = Except.error err →
      processStandaloneImage env imagePath tempDir = imagePath) ∧
    (∀ (env : Env) (imagePath tempDir : String),
      env.sharpResize imagePath = Except.ok () →
      processStandaloneImage env imagePath tempDir =
        pathJoin tempDir ("optimized_" ++ basename imagePath)) ∧
    (∀ w h : Nat,
      (fitInside1024 w h).1 ≤ 1024 ∧ (fitInside1024 w h).2 ≤ 1024 ∧
      (fitInside1024 w h).1 ≤ w ∧ (fitInside1024 w h).2 ≤ h) := by
  refine ⟨?_, ?_, fitInside1024_bounds⟩
  · intro env p t e he
    simp [processStandaloneImage, he]
  · intro env p t he
    simp [processStandaloneImage, he]

/-- Witness for C8: a corrupt image falls back to its original path. -/
theorem C8_standalone_image_fallback_witness :
    processStandaloneImage envResizeFail "/d/img.png" tempDirPath = "/d/img.png" :=
  C8_standalone_image_fallback.1 envResizeFail "/d/img.png" tempDirPath
    "corrupt input" rfl

/-- Claim C9: for a successfully rasterized PDF the pipeline produces one
image result per extracted page image in order, with pageNumber counting
sequentially from 1, source the original PDF path and imagePath the
extracted page image; a standalone image result carries no pageNumber,
source the original image path and imagePath the processed image path. -/
theorem C9_image_descriptors :
    (∀ (env : Env) (pdfPath tempDir : String) (pages : List RasterPage),
      env.rasterize pdfPath = Except.ok pages →
      (processImagesFromPDF env pdfPath tempDir).map (fun r => r.imagePath) =
        pages.filterMap (fun p => p.path) ∧
      (processImagesFromPDF env pdfPath tempDir).map (fun r => r.source) =
        (pages.filterMap (fun p => p.path)).map (fun _ => pdfPath) ∧
      (processImagesFromPDF env pdfPath tempDir).map (fun r => r.pageNumber) =
        (List.range (pages.filterMap (fun p => p.path)).length).map
          (fun i => some (i + 1))) ∧
    (∀ (env : Env) (imagePath tempDir : String),
      processStandaloneImageFile env imagePath tempDir =
        some { description :=
                 generateImageDescription env (processStandaloneImage env imagePath tempDir)
               imagePath := processStandaloneImage env imagePath tempDir
               source := imagePath
               pageNumber := none }) := by
  constructor
  · intro env p t pages hok
    have hext : extractImagesFromPDF env p t = pages.filterMap (fun r => r.path) := by
      simp [extractImagesFromPDF, hok]
    refine ⟨?_, ?_, ?_⟩
    · rw [processImagesFromPDF, hext]
      exact numberResults_map_imagePath env p _ 0
    · rw [processImagesFromPDF, hext]
      exact numberResults_map_source env p _ 0
    · rw [processImagesFromPDF, hext, numberResults_map_pageNumber env p _ 0]
      simp only [Nat.zero_add]
  · intro env p t
    rfl

/-- Witness for C9: the two extracted page images are numbered 1 and 2. -/
theorem C9_image_descriptors_witness :
    (processImagesFromPDF envRasterOk "/d/a.pdf" tempDirPath).map
        (fun r => r.pageNumber) =
      (List.range (pagesW.filterMap (fun p => p.path)).length).map
        (fun i => some (i + 1)) :=
  (C9_image_descriptors.1 envRasterOk "/d/a.pdf" tempDirPath pagesW rfl).2.2
